import Mathlib

/-!
Verification of the security/framing core of the Midea local-network
control library (files src/lib/core/message.js, src/lib/core/packet-builder.js,
src/lib/core/device.js).

Bytes are modelled as `Nat` values (callers keep them below 256); buffers are
`List Nat`.  The AES block ciphers, SHA-256 and MD5 are external library
primitives (node:crypto), so they enter the model as function parameters:
`encB`/`decB : List Nat → List Nat → List Nat` is the keyed AES-128 block
operation, `hash : List Nat → List Nat` is SHA-256 (32-byte output) and
`md5 : List Nat → List Nat` the MD5 digest.  CBC chaining, padding, framing,
counters and checksums — everything implemented in the repository itself —
is translated directly from the JavaScript source.
-/

namespace Midea

/-- Message-type constants from src/lib/core/constants.js. -/
def MSGTYPE_HANDSHAKE_REQUEST : Nat := 0x0

def MSGTYPE_HANDSHAKE_RESPONSE : Nat := 0x1

def MSGTYPE_ENCRYPTED_RESPONSE : Nat := 0x3

def MSGTYPE_ENCRYPTED_REQUEST : Nat := 0x6

/-- ASCII bytes of the string ERROR. -/
def errorBytes : List Nat := [0x45, 0x52, 0x52, 0x4F, 0x52]

/-- The all-zero IV used by LocalSecurity (this.iv = Buffer.alloc(16, 0)). -/
def iv16 : List Nat := List.replicate 16 0

/-- bufferXOR from src/lib/core/message.js: byte-wise XOR over the longer
length, missing bytes read as 0 (undefined coerces to 0 in the JS engine). -/
def bufferXOR (a b : List Nat) : List Nat :=
  (List.range (max a.length b.length)).map (fun i => a.getD i 0 ^^^ b.getD i 0)

/-- Block-level XOR used inside CBC chaining (library level, equal-length
16-byte blocks). -/
def xorBlocks (a b : List Nat) : List Nat :=
  List.zipWith (fun x y => x ^^^ y) a b

/-- Worker for chunks16: structural recursion on a fuel bounded by the list
length (each step consumes at least one element, so the fuel never runs out
when it starts at the length). -/
def chunksAux : Nat → List Nat → List (List Nat)
  | _, [] => []
  | 0, l => [l]
  | fuel + 1, l => l.take 16 :: chunksAux fuel (l.drop 16)

/-- Split a buffer into 16-byte chunks (the last chunk is short when the
length is not a multiple of 16). -/
def chunks16 (l : List Nat) : List (List Nat) :=
  chunksAux l.length l

/-- CBC encryption chaining: each plaintext block is XORed with the previous
ciphertext block (initially the IV) before the block cipher is applied. -/
def cbcEncAux (encB : List Nat → List Nat) : List Nat → List (List Nat) → List (List Nat)
  | _, [] => []
  | prev, b :: bs =>
    let c := encB (xorBlocks prev b)
    c :: cbcEncAux encB c bs

/-- CBC decryption chaining: each ciphertext block is deciphered and XORed
with the previous ciphertext block (initially the IV). -/
def cbcDecAux (decB : List Nat → List Nat) : List Nat → List (List Nat) → List (List Nat)
  | _, [] => []
  | prev, c :: cs => xorBlocks prev (decB c) :: cbcDecAux decB c cs

/-- Equality of Except values is decidable once both components are; used
to evaluate the codec on concrete inputs. -/
instance instExceptDecEq {e a : Type} [DecidableEq e] [DecidableEq a] :
    DecidableEq (Except e a) := fun x y =>
  match x, y with
  | .ok v, .ok w =>
    if h : v = w then isTrue (by rw [h]) else isFalse (fun he => h (Except.ok.inj he))
  | .error v, .error w =>
    if h : v = w then isTrue (by rw [h]) else isFalse (fun he => h (Except.error.inj he))
  | .ok _, .error _ => isFalse (fun he => Except.noConfusion he)
  | .error _, .ok _ => isFalse (fun he => Except.noConfusion he)

/-- Errors thrown by LocalSecurity / message parsing. -/
inductive SecError where
  | notAn8370
  | missingByte4
  | tcpKeyNotSet
  | encryptedTooShort
  | signMismatch
  | payloadTooShort
  | cbcBlockLength
  | sizeOutOfRange
  | authFailedERROR
  | unexpectedLength
  | tcpKeySignMismatch
  deriving Repr, DecidableEq

/-- The mutable fields of LocalSecurity: _tcpKey, _requestCount,
_responseCount. -/
structure SecState where
  tcpKey : Option (List Nat)
  requestCount : Nat
  responseCount : Nat
  deriving Repr, DecidableEq

/-- LocalSecurity.aesCbcEncrypt: node aes-128-cbc with autoPadding disabled
throws when the input is not a multiple of the block size, otherwise applies
plain CBC under the zero IV. -/
def aesCbcEncrypt (encB : List Nat → List Nat → List Nat) (raw key : List Nat) :
    Except SecError (List Nat) :=
  if raw.length % 16 = 0 then
    .ok (cbcEncAux (encB key) iv16 (chunks16 raw)).flatten
  else
    .error .cbcBlockLength

/-- LocalSecurity.aesCbcDecrypt: node aes-128-cbc decryption with autoPadding
disabled; throws on a partial final block. -/
def aesCbcDecrypt (decB : List Nat → List Nat → List Nat) (raw key : List Nat) :
    Except SecError (List Nat) :=
  if raw.length % 16 = 0 then
    .ok (cbcDecAux (decB key) iv16 (chunks16 raw)).flatten
  else
    .error .cbcBlockLength

/-- pkcs7Pad from src/lib/core/message.js. -/
def pkcs7Pad (buffer : List Nat) (blockSize : Nat) : List Nat :=
  let padding := blockSize - buffer.length % blockSize
  buffer ++ List.replicate padding padding

/-- pkcs7Unpad from src/lib/core/message.js.  The boolean records whether the
invalid-padding warning was logged; in both warning cases the function
returns the input buffer unchanged.  (The source reads the final byte of a
nonempty buffer; the default 0 matches no valid pad value.) -/
def pkcs7Unpad (buffer : List Nat) : Bool × List Nat :=
  let padding := buffer.getD (buffer.length - 1) 0
  if padding < 1 ∨ padding > buffer.length then
    (true, buffer)
  else if (buffer.drop (buffer.length - padding)).any (fun b => b ≠ padding) then
    (true, buffer)
  else
    (false, buffer.take (buffer.length - padding))

/-- LocalSecurity.aesEncrypt: AES-128-ECB under the fixed key (the keyed
block cipher is the parameter `encB`) applied to the PKCS#7-padded input. -/
def aesEncrypt (encB : List Nat → List Nat) (raw : List Nat) : List Nat :=
  ((chunks16 (pkcs7Pad raw 16)).map encB).flatten

/-- LocalSecurity.aesDecrypt: AES-128-ECB decryption with manual padding
handling.  A partial final block makes node's decipher throw; the catch
block returns an empty buffer.  Otherwise the deciphered bytes go through
pkcs7Unpad; the boolean is pkcs7Unpad's warning flag. -/
def aesDecrypt (decB : List Nat → List Nat) (raw : List Nat) : Bool × List Nat :=
  if raw.length % 16 = 0 then
    pkcs7Unpad ((chunks16 raw).map decB).flatten
  else
    (false, [])

/-- Padding computed by LocalSecurity.encode8370 for an encrypted message
whose payload has length n (the +2 accounts for the request counter). -/
def pad16 (n : Nat) : Nat :=
  if (n + 2) % 16 ≠ 0 then 16 - (n + 2) % 16 else 0

/-- The counter update performed at the end of every encode8370 call:
increment, then reset to 0 once the value reaches 0xFFFF. -/
def counterStep (c : Nat) : Nat :=
  if c + 1 ≥ 0xFFFF then 0 else c + 1

/-- LocalSecurity.encode8370.  `randomBytes n` stands for crypto.randomBytes;
`hash` is SHA-256.  The pair returns the thrown error or the produced frame
together with the state as mutated by the call: node's writeUInt16BE range
check fires before the counter increment, the missing-tcp-key error after
it, exactly as in the source. -/
def encode8370 (encB : List Nat → List Nat → List Nat) (hash : List Nat → List Nat)
    (randomBytes : Nat → List Nat) (st : SecState) (data0 : List Nat) (msgType : Nat) :
    Except SecError (List Nat) × SecState :=
  let isEnc := msgType = MSGTYPE_ENCRYPTED_RESPONSE ∨ msgType = MSGTYPE_ENCRYPTED_REQUEST
  let padding := if isEnc then pad16 data0.length else 0
  let data := if isEnc then data0 ++ randomBytes padding else data0
  let size := if isEnc then data.length + 32 else data0.length
  if size ≥ 65536 then
    (.error .sizeOutOfRange, st)
  else
    let header : List Nat :=
      [0x83, 0x70, size / 256, size % 256, 0x20, ((padding <<< 4) ||| msgType) % 256]
    let dataToEncrypt := [st.requestCount / 256, st.requestCount % 256] ++ data
    let st1 : SecState := { st with requestCount := counterStep st.requestCount }
    if isEnc then
      match st.tcpKey with
      | none => (.error .tcpKeyNotSet, st1)
      | some key =>
        let sign := hash (header ++ dataToEncrypt)
        match aesCbcEncrypt encB dataToEncrypt key with
        | .error e => (.error e, st1)
        | .ok encryptedData => (.ok (header ++ encryptedData ++ sign), st1)
    else
      (.ok (header ++ dataToEncrypt), st1)

/-- One iteration of the decode8370 while loop: examine the front of the
buffer and either stop (incomplete frame), fail (thrown error), or emit one
decoded packet together with the updated session state. -/
inductive StepResult where
  | stop
  | fail : SecError → StepResult
  | emit : List Nat → SecState → StepResult
  deriving Repr, DecidableEq

/-- The body of LocalSecurity.decode8370's while loop, translated clause by
clause from the source; the caller advances past the processed frame. -/
def decode8370Step (decB : List Nat → List Nat → List Nat) (hash : List Nat → List Nat)
    (st : SecState) (remaining : List Nat) : StepResult :=
  if remaining.length < 6 then
    .stop
  else if remaining.getD 0 0 = 0x83 ∧ remaining.getD 1 0 = 0x70 then
    let size := remaining.getD 2 0 * 256 + remaining.getD 3 0 + 8
    if remaining.length < size then
      .stop
    else
      let header := remaining.take 6
      let currentPacket := remaining.take size
      if remaining.getD 4 0 = 0x20 then
        let padding := remaining.getD 5 0 >>> 4
        let msgType := remaining.getD 5 0 &&& 0x0f
        let payload := currentPacket.drop 6
        if msgType = MSGTYPE_ENCRYPTED_RESPONSE ∨ msgType = MSGTYPE_ENCRYPTED_REQUEST then
          match st.tcpKey with
          | none => .fail .tcpKeyNotSet
          | some key =>
            if payload.length < 32 then
              .fail .encryptedTooShort
            else
              let sign := payload.drop (payload.length - 32)
              let encryptedPayload := payload.take (payload.length - 32)
              match aesCbcDecrypt decB encryptedPayload key with
              | .error e => .fail e
              | .ok decryptedPayload =>
                if hash (header ++ decryptedPayload) = sign then
                  let payload2 :=
                    if padding > 0 then
                      decryptedPayload.take (decryptedPayload.length - padding)
                    else decryptedPayload
                  if payload2.length < 2 then
                    .fail .payloadTooShort
                  else
                    .emit (payload2.drop 2)
                      { st with responseCount := payload2.getD 0 0 * 256 + payload2.getD 1 0 }
                else if decryptedPayload = errorBytes then
                  .emit errorBytes st
                else
                  .fail .signMismatch
        else
          if payload.length < 2 then
            .fail .payloadTooShort
          else
            .emit (payload.drop 2)
              { st with responseCount := payload.getD 0 0 * 256 + payload.getD 1 0 }
      else
        .fail .missingByte4
  else
    .fail .notAn8370

/-- LocalSecurity.decode8370, while loop.  `acc` collects the decoded
packets in reverse order.  The loop is driven by a fuel that starts at the
buffer length; every iteration consumes a complete frame of at least 8
bytes, so the fuel stays at or above the remaining length and can only run
out once the remainder is empty, where the exhaustion branch coincides with
the loop exit of the source. -/
def decode8370Go (decB : List Nat → List Nat → List Nat) (hash : List Nat → List Nat) :
    Nat → SecState → List Nat → List (List Nat) →
    Except SecError (List (List Nat) × List Nat × SecState)
  | 0, st, remaining, acc => .ok (acc.reverse, remaining, st)
  | fuel + 1, st, remaining, acc =>
    match decode8370Step decB hash st remaining with
    | .stop => .ok (acc.reverse, remaining, st)
    | .fail e => .error e
    | .emit packet st2 =>
      decode8370Go decB hash fuel st2
        (remaining.drop (remaining.getD 2 0 * 256 + remaining.getD 3 0 + 8))
        (packet :: acc)

/-- LocalSecurity.decode8370. -/
def decode8370 (decB : List Nat → List Nat → List Nat) (hash : List Nat → List Nat)
    (st : SecState) (data : List Nat) :
    Except SecError (List (List Nat) × List Nat × SecState) :=
  decode8370Go decB hash data.length st data []

/-- LocalSecurity.tcpKey.  On success the new state holds the derived key
and zeroed counters; every failure path throws before any field of the
session is mutated, so an error result leaves the caller's state intact. -/
def tcpKeyOp (decB : List Nat → List Nat → List Nat) (hash : List Nat → List Nat)
    (st : SecState) (response key : List Nat) : Except SecError SecState :=
  if response = errorBytes then
    .error .authFailedERROR
  else if response.length ≠ 64 then
    .error .unexpectedLength
  else
    let payload := response.take 32
    let sign := response.drop 32
    match aesCbcDecrypt decB payload key with
    | .error e => .error e
    | .ok plain =>
      if hash plain = sign then
        .ok { tcpKey := some (bufferXOR plain key), requestCount := 0, responseCount := 0 }
      else
        .error .tcpKeySignMismatch

/-- CRC8.calculate from src/lib/core/crc8.js (also PacketBuilder.checksum and
MessageBase.checksum): two's-complement negation of the byte sum, low byte.
JavaScript computes (~sum + 1) & 0xff over 32-bit integers, which for a
non-negative sum below 2^31 equals the least non-negative residue of -sum
modulo 256. -/
def crc8 (data : List Nat) : Nat :=
  ((-(data.foldl (fun a b => a + b) 0 : Int)) % 256).toNat

/-- Errors thrown by the message response constructor. -/
inductive MsgError where
  | lenError
  deriving Repr, DecidableEq

/-- The fields MessageResponse extracts from a raw message. -/
structure ParsedResponse where
  header : List Nat
  protocolVersion : Nat
  messageType : Nat
  deviceType : Nat
  body : List Nat
  bodyType : Nat
  deriving Repr, DecidableEq

/-- MessageResponse constructor from src/lib/core/message.js: inputs shorter
than HEADER_LENGTH + 1 = 11 bytes throw MessageLenError; otherwise header =
bytes 0..10 and body = bytes 10..len-1 (slice(10, -1)).  bodyType is body[0]
(modelled with default 0 for the empty body, where the source stores
undefined). -/
def mkMessageResponse (message : List Nat) : Except MsgError ParsedResponse :=
  if message.length < 11 then
    .error .lenError
  else
    let header := message.take 10
    let body := (message.drop 10).dropLast
    .ok { header := header
          protocolVersion := header.getD 8 0
          messageType := header.getD 9 0
          deviceType := header.getD 2 0
          body := body
          bodyType := body.getD 0 0 }

/-- MessageRequest.header: 10 bytes, flag 0xAA, then the total length
(header + body), device type, five zero bytes, protocol version and message
type.  Buffer element assignment truncates each stored value to a byte. -/
def requestHeader (deviceType protocolVersion messageType : Nat) (body : List Nat) : List Nat :=
  [0xAA, (10 + body.length) % 256, deviceType % 256,
   0x00, 0x00, 0x00, 0x00, 0x00, protocolVersion % 256, messageType % 256]

/-- MessageRequest.serialize: header ‖ body followed by the checksum of
everything except the leading byte (stream.slice(1)). -/
def serializeRequest (deviceType protocolVersion messageType : Nat) (body : List Nat) :
    List Nat :=
  let stream := requestHeader deviceType protocolVersion messageType body ++ body
  stream ++ [crc8 (stream.drop 1)]

/-- Byte store into a buffer: JavaScript Buffer assignment truncates the
value to a byte and silently drops writes past the end of the buffer, and
List.set is likewise the identity out of range. -/
def bufSet (buf : List Nat) (i v : Nat) : List Nat :=
  buf.set i (v % 256)

/-- Buffer.copy(dst, pos): copies source bytes into dst starting at pos,
stopping at the end of dst; dst keeps its length. -/
def bufCopy (dst src : List Nat) (pos : Nat) : List Nat :=
  dst.take pos ++ src.take (dst.length - pos) ++
    dst.drop (pos + min src.length (dst.length - pos))

/-- The 8 little-endian bytes of writeBigInt64LE for a non-negative id. -/
def le64 (v : Nat) : List Nat :=
  (List.range 8).map (fun i => v / 256 ^ i % 256)

/-- Buffer.writeUInt16LE at offset pos. -/
def writeUInt16LE (buf : List Nat) (v pos : Nat) : List Nat :=
  bufSet (bufSet buf pos (v % 256)) (pos + 1) (v / 256 % 256)

/-- The 32-byte salt of LocalSecurity (hex a324…9e51). -/
def salt32 : List Nat :=
  [0xa3, 0x24, 0xac, 0x3e, 0x19, 0x8a, 0x10, 0x52,
   0x76, 0xbc, 0xec, 0x8a, 0x4e, 0xc9, 0xa7, 0x58,
   0x90, 0x97, 0x41, 0xe1, 0x14, 0x06, 0x7d, 0x70,
   0x8b, 0x49, 0x16, 0x56, 0x0c, 0x55, 0x9e, 0x51]

/-- LocalSecurity.encode32Data: MD5 over data ‖ salt. -/
def encode32Data (md5 : List Nat → List Nat) (raw : List Nat) : List Nat :=
  md5 (raw ++ salt32)

/-- PacketBuilder constructor from src/lib/core/packet-builder.js.  The
buffer is allocated with 38 bytes (Buffer.alloc(38)); every subsequent store
goes through Buffer index assignment, which drops out-of-range writes — in
particular the padding loop for offsets 28..39 only lands on 28..37.
`timeBytes` stands for PacketBuilder.packetTime() (8 clock-derived bytes). -/
def packetBuilderInit (deviceId : Nat) (timeBytes : List Nat) : List Nat :=
  let p0 := List.replicate 38 0
  let p1 := bufSet (bufSet (bufSet (bufSet p0 0 0x5a) 1 0x5a) 2 0x01) 3 0x11
  let p2 := bufSet (bufSet p1 4 0x00) 5 0x00
  let p3 := bufSet (bufSet p2 6 0x20) 7 0x00
  let p4 := bufSet (bufSet (bufSet (bufSet p3 8 0x00) 9 0x00) 10 0x00) 11 0x00
  let p5 := bufCopy p4 timeBytes 12
  let p6 := bufCopy p5 (le64 deviceId) 20
  (List.range 12).foldl (fun b i => bufSet b (28 + i) 0x00) p6

/-- PacketBuilder.finalize: for msgType 1 the AES-ECB-encrypted command is
appended to the header buffer; otherwise bytes 3 and 6 are patched for the
handshake variant.  The packet length + 16 is stored little-endian at
offset 4 and the MD5-salt tag is appended. -/
def packetBuilderFinalize (encB : List Nat → List Nat) (md5 : List Nat → List Nat)
    (packet command : List Nat) (msgType : Nat) : List Nat :=
  let p1 :=
    if msgType ≠ 1 then
      bufSet (bufSet packet 3 0x10) 6 0x7b
    else
      packet ++ aesEncrypt encB command
  let p2 := writeUInt16LE p1 (p1.length + 16) 4
  p2 ++ encode32Data md5 p2

/-! ### Helper lemmas about chunking and CBC chaining -/

theorem chunksAux_congr : ∀ f g : Nat, ∀ l : List Nat,
    l.length ≤ f → l.length ≤ g → chunksAux f l = chunksAux g l := by
  intro f
  induction f with
  | zero =>
    intro g l hf _
    have : l = [] := List.eq_nil_of_length_eq_zero (Nat.le_zero.mp hf)
    subst this
    cases g <;> rfl
  | succ f ih =>
    intro g l hf hg
    cases l with
    | nil => cases g <;> rfl
    | cons a t =>
      cases g with
      | zero => simp at hg
      | succ g =>
        simp only [chunksAux]
        refine congrArg _ (ih g ((a :: t).drop 16) ?_ ?_) <;>
          simp only [List.length_drop, List.length_cons] at hf hg ⊢ <;> omega

theorem chunks16_cons (l : List Nat) (h : l ≠ []) :
    chunks16 l = l.take 16 :: chunks16 (l.drop 16) := by
  cases l with
  | nil => exact absurd rfl h
  | cons a t =>
    show chunksAux (a :: t).length (a :: t) = _
    simp only [List.length_cons, chunksAux]
    refine congrArg _ (chunksAux_congr _ _ _ ?_ ?_) <;>
      simp only [List.length_drop, List.length_cons] <;> omega

theorem chunksAux_sixteen_length : ∀ fuel : Nat, ∀ l : List Nat,
    l.length ≤ fuel → l.length % 16 = 0 → ∀ c ∈ chunksAux fuel l, c.length = 16 := by
  intro fuel
  induction fuel with
  | zero =>
    intro l hf _ c hc
    have : l = [] := List.eq_nil_of_length_eq_zero (Nat.le_zero.mp hf)
    subst this
    simp [chunksAux] at hc
  | succ fuel ih =>
    intro l hf hmod c hc
    cases l with
    | nil => simp [chunksAux] at hc
    | cons a t =>
      simp only [chunksAux, List.mem_cons] at hc
      have hlen : 16 ≤ (a :: t).length := by
        simp only [List.length_cons] at hmod ⊢
        omega
      rcases hc with hc | hc
      · subst hc
        simp only [List.length_take]
        omega
      · refine ih ((a :: t).drop 16) ?_ ?_ c hc <;>
          simp only [List.length_drop, List.length_cons] at hf hmod ⊢ <;> omega

theorem chunks16_sixteen_length (l : List Nat) (h : l.length % 16 = 0) :
    ∀ c ∈ chunks16 l, c.length = 16 :=
  chunksAux_sixteen_length l.length l (Nat.le_refl _) h

theorem chunksAux_flatten_self : ∀ fuel : Nat, ∀ l : List Nat,
    l.length ≤ fuel → (chunksAux fuel l).flatten = l := by
  intro fuel
  induction fuel with
  | zero =>
    intro l hf
    have : l = [] := List.eq_nil_of_length_eq_zero (Nat.le_zero.mp hf)
    subst this
    rfl
  | succ fuel ih =>
    intro l hf
    cases l with
    | nil => rfl
    | cons a t =>
      simp only [chunksAux, List.flatten_cons]
      rw [ih ((a :: t).drop 16)
        (by simp only [List.length_drop, List.length_cons] at hf ⊢; omega)]
      exact List.take_append_drop 16 (a :: t)

theorem flatten_chunks16 (l : List Nat) : (chunks16 l).flatten = l :=
  chunksAux_flatten_self l.length l (Nat.le_refl _)

theorem chunks16_flatten (cs : List (List Nat)) (h : ∀ c ∈ cs, c.length = 16) :
    chunks16 cs.flatten = cs := by
  induction cs with
  | nil => rfl
  | cons c cs ih =>
    rw [List.flatten_cons]
    have hc : c.length = 16 := h c (by simp)
    have hne : c ++ cs.flatten ≠ [] := by
      intro he
      have := congrArg List.length he
      simp [hc] at this
    rw [chunks16_cons _ hne, List.take_left' hc, List.drop_left' hc,
      ih (fun d hd => h d (by simp [hd]))]

theorem flatten_length_16 (cs : List (List Nat)) (h : ∀ c ∈ cs, c.length = 16) :
    cs.flatten.length = 16 * cs.length := by
  induction cs with
  | nil => rfl
  | cons c cs ih =>
    simp only [List.flatten_cons, List.length_append, List.length_cons,
      h c (by simp), ih (fun d hd => h d (by simp [hd]))]
    ring

theorem length_xorBlocks (a b : List Nat) :
    (xorBlocks a b).length = min a.length b.length := by
  simp [xorBlocks]

theorem xorBlocks_cancel : ∀ a b : List Nat, a.length = b.length →
    xorBlocks a (xorBlocks a b) = b := by
  intro a
  induction a with
  | nil =>
    intro b hb
    cases b with
    | nil => rfl
    | cons y ys => simp at hb
  | cons x xs ih =>
    intro b hb
    cases b with
    | nil => simp at hb
    | cons y ys =>
      simp only [xorBlocks, List.zipWith_cons_cons] at *
      rw [← Nat.xor_assoc, Nat.xor_self, Nat.zero_xor,
        ih ys (by simp only [List.length_cons] at hb; omega)]

theorem length_cbcEncAux (encB : List Nat → List Nat) :
    ∀ bs : List (List Nat), ∀ prev : List Nat,
      (cbcEncAux encB prev bs).length = bs.length := by
  intro bs
  induction bs with
  | nil => intro prev; rfl
  | cons b bs ih => intro prev; simp [cbcEncAux, ih]

theorem cbcEncAux_blocks_length (encB : List Nat → List Nat)
    (hlen : ∀ b : List Nat, (encB b).length = 16) :
    ∀ bs : List (List Nat), ∀ prev : List Nat,
      ∀ c ∈ cbcEncAux encB prev bs, c.length = 16 := by
  intro bs
  induction bs with
  | nil => intro prev c hc; simp [cbcEncAux] at hc
  | cons b bs ih =>
    intro prev c hc
    simp only [cbcEncAux, List.mem_cons] at hc
    rcases hc with hc | hc
    · subst hc; exact hlen _
    · exact ih _ c hc

theorem cbcDecAux_cbcEncAux (encB decB : List Nat → List Nat)
    (hinv : ∀ b : List Nat, b.length = 16 → decB (encB b) = b)
    (hlen : ∀ b : List Nat, (encB b).length = 16) :
    ∀ bs : List (List Nat), ∀ prev : List Nat, prev.length = 16 →
      (∀ b ∈ bs, b.length = 16) →
      cbcDecAux decB prev (cbcEncAux encB prev bs) = bs := by
  intro bs
  induction bs with
  | nil => intro prev _ _; rfl
  | cons b bs ih =>
    intro prev hprev hb
    have hb16 : b.length = 16 := hb b (by simp)
    have hxor : (xorBlocks prev b).length = 16 := by
      rw [length_xorBlocks, hprev, hb16]
      simp
    simp only [cbcEncAux, cbcDecAux, hinv _ hxor]
    rw [xorBlocks_cancel prev b (by omega)]
    exact congrArg _ (ih _ (hlen _) (fun d hd => hb d (by simp [hd])))

/-- CBC round trip at the byte level: decrypting an encryption of a
block-aligned buffer under an invertible block cipher restores the buffer. -/
theorem aesCbcDecrypt_aesCbcEncrypt (encB decB : List Nat → List Nat → List Nat)
    (key raw ct : List Nat)
    (hinv : ∀ b : List Nat, b.length = 16 → decB key (encB key b) = b)
    (hlen : ∀ b : List Nat, (encB key b).length = 16)
    (hraw : raw.length % 16 = 0)
    (hct : aesCbcEncrypt encB raw key = .ok ct) :
    ct.length = raw.length ∧ aesCbcDecrypt decB ct key = .ok raw := by
  have hchunks : ∀ c ∈ chunks16 raw, c.length = 16 := chunks16_sixteen_length raw hraw
  have hctval : ct = (cbcEncAux (encB key) iv16 (chunks16 raw)).flatten := by
    rw [aesCbcEncrypt, if_pos hraw] at hct
    exact (Except.ok.inj hct).symm
  have hblocks : ∀ c ∈ cbcEncAux (encB key) iv16 (chunks16 raw), c.length = 16 :=
    cbcEncAux_blocks_length (encB key) hlen _ _
  have hctlen : ct.length = raw.length := by
    rw [hctval, flatten_length_16 _ hblocks, length_cbcEncAux]
    have h1 : (chunks16 raw).flatten.length = 16 * (chunks16 raw).length :=
      flatten_length_16 _ hchunks
    rw [flatten_chunks16] at h1
    omega
  refine ⟨hctlen, ?_⟩
  rw [aesCbcDecrypt, if_pos (by rw [hctlen]; exact hraw), hctval,
    chunks16_flatten _ hblocks,
    cbcDecAux_cbcEncAux (encB key) (decB key) hinv hlen _ iv16 (by simp [iv16]) hchunks,
    flatten_chunks16]

theorem getD_take (l : List Nat) (n i d : Nat) (h : i < n) :
    (l.take n).getD i d = l.getD i d := by
  simp [List.getD, List.getElem?_take, h]

/-! ### Claim theorems -/

theorem concat_last_drop (t : List Nat) (a c : Nat) :
    ((a :: t) ++ [c]).getLast? = some c ∧ (((a :: t) ++ [c]).drop 1).dropLast = t := by
  constructor
  · exact List.getLast?_concat _
  · rw [List.cons_append]
    exact List.dropLast_concat

/-- Claim C8: the trailing byte of every serialized appliance request equals
the CRC-sum-8 — defined as the low byte of the two's-complement negation of
the byte sum — computed over all bytes of the message except the leading
0xAA flag and the checksum byte itself; concretely, the CRC-sum-8 of the
bytes 01 02 03 04 05 is 0xF1. -/
theorem serializeRequest_trailing_checksum (deviceType protocolVersion messageType : Nat)
    (body : List Nat) :
    (serializeRequest deviceType protocolVersion messageType body).getLast? =
      some (crc8
        (((serializeRequest deviceType protocolVersion messageType body).drop 1).dropLast)) ∧
    crc8 [1, 2, 3, 4, 5] = 0xF1 := by
  constructor
  · rw [show serializeRequest deviceType protocolVersion messageType body =
        (0xAA :: ([(10 + body.length) % 256, deviceType % 256, 0, 0, 0, 0, 0,
            protocolVersion % 256, messageType % 256] ++ body)) ++
          [crc8 ([(10 + body.length) % 256, deviceType % 256, 0, 0, 0, 0, 0,
            protocolVersion % 256, messageType % 256] ++ body)] from rfl,
      (concat_last_drop _ _ _).1, (concat_last_drop _ _ _).2]
  · decide

/-- Claim C6 counterexample: a 12-byte response whose trailing byte 0x00
differs from the CRC-sum-8 of its contents (0x3C) is parsed successfully;
the constructor never validates the checksum. -/
theorem mkMessageResponse_accepts_bad_checksum :
    (mkMessageResponse [0xAA, 12, 0xAC, 0, 0, 0, 0, 0, 3, 2, 7, 0]).isOk = true ∧
    [0xAA, 12, 0xAC, 0, 0, 0, 0, 0, 3, 2, 7, 0].getLast? ≠
      some (crc8 (([0xAA, 12, 0xAC, 0, 0, 0, 0, 0, 3, 2, 7, 0].drop 1).dropLast)) := by
  decide

/-- Claim C6 (amended): parsing an appliance response fails with a length
error exactly when the input is shorter than 11 bytes; any longer input is
accepted with header = bytes 0..10 and body = bytes 10..len-1, and the
trailing checksum byte is never validated. -/
theorem mkMessageResponse_spec (msg : List Nat) :
    (msg.length < 11 → mkMessageResponse msg = .error .lenError) ∧
    (11 ≤ msg.length →
      mkMessageResponse msg =
        .ok { header := msg.take 10
              protocolVersion := msg.getD 8 0
              messageType := msg.getD 9 0
              deviceType := msg.getD 2 0
              body := (msg.drop 10).dropLast
              bodyType := ((msg.drop 10).dropLast).getD 0 0 }) := by
  constructor
  · intro h
    simp [mkMessageResponse, h]
  · intro h
    rw [mkMessageResponse, if_neg (by omega)]
    simp only [getD_take msg 10 8 0 (by norm_num), getD_take msg 10 9 0 (by norm_num),
      getD_take msg 10 2 0 (by norm_num)]

/-- Claim C6 witness: a 3-byte input is rejected with the length error and a
12-byte input with a valid structure parses into its header and body. -/
theorem mkMessageResponse_spec_witness :
    mkMessageResponse [0, 1, 2] = .error .lenError ∧
    mkMessageResponse [0xAA, 12, 0xAC, 0, 0, 0, 0, 0, 3, 2, 7, 9] =
      .ok { header := [0xAA, 12, 0xAC, 0, 0, 0, 0, 0, 3, 2], protocolVersion := 3,
            messageType := 2, deviceType := 0xAC, body := [7], bodyType := 7 } := by
  refine ⟨(mkMessageResponse_spec [0, 1, 2]).1 (by decide), ?_⟩
  rw [(mkMessageResponse_spec [0xAA, 12, 0xAC, 0, 0, 0, 0, 0, 3, 2, 7, 9]).2 (by decide)]
  decide

/-- Claim C7 counterexample: decrypting sixteen zero bytes with an identity
block cipher yields a buffer whose final byte 0 is outside 1..=16, yet
aesDecrypt only logs a warning (flag true) and returns the whole decrypted
buffer as the data, instead of flagging an integrity error in the result. -/
theorem aesDecrypt_counterexample :
    aesDecrypt (fun b => b) (List.replicate 16 0) = (true, List.replicate 16 0) := by
  decide

/-- Claim C7 (amended): when the decrypted buffer has an invalid PKCS#7 pad
— final byte 0, final byte exceeding the buffer length, or a trailing byte
differing from the pad value — aesDecrypt logs a warning and returns the
decrypted buffer unchanged, without stripping padding and without raising
any error. -/
theorem aesDecrypt_invalid_padding (decB : List Nat → List Nat) (raw dec : List Nat)
    (hmod : raw.length % 16 = 0)
    (hdec : dec = ((chunks16 raw).map decB).flatten)
    (hbad : dec.getD (dec.length - 1) 0 < 1 ∨
            dec.length < dec.getD (dec.length - 1) 0 ∨
            (dec.drop (dec.length - dec.getD (dec.length - 1) 0)).any
              (fun b => b ≠ dec.getD (dec.length - 1) 0) = true) :
    aesDecrypt decB raw = (true, dec) := by
  subst hdec
  rw [aesDecrypt, if_pos hmod, pkcs7Unpad]
  by_cases h1 :
      (((chunks16 raw).map decB).flatten.getD
          ((((chunks16 raw).map decB).flatten).length - 1) 0 < 1 ∨
        (((chunks16 raw).map decB).flatten).getD
          ((((chunks16 raw).map decB).flatten).length - 1) 0 >
          (((chunks16 raw).map decB).flatten).length)
  · rw [if_pos h1]
  · rw [if_neg h1]
    rcases hbad with h | h | h
    · exact absurd (Or.inl h) h1
    · exact absurd (Or.inr h) h1
    · rw [if_pos h]

/-- Claim C7 witness: a 16-byte buffer ending in the byte 20 — a pad value
larger than the buffer — is returned unchanged with the warning flag. -/
theorem aesDecrypt_invalid_padding_witness :
    aesDecrypt (fun b => b) (List.replicate 15 9 ++ [20]) =
      (true, List.replicate 15 9 ++ [20]) :=
  aesDecrypt_invalid_padding (fun b => b) (List.replicate 15 9 ++ [20])
    (List.replicate 15 9 ++ [20]) (by decide) (by decide)
    (Or.inr (Or.inl (by decide)))

/-- Claim C3: the packet builder allocates a 38-byte header — not the
40 bytes its own layout comments (2+2+2+2+4+8+8+12) add up to — because the
padding loop for offsets 28..39 silently drops its writes to offsets 38 and
39; consequently the AES-ECB-encrypted command of a standard finalize
(msgType 1) begins at byte offset 38, and only 10 zero padding bytes follow
offset 28. -/
theorem packetBuilder_command_at_offset_38 :
    (packetBuilderInit 0 (List.replicate 8 0)).length = 38 ∧
    (packetBuilderInit 0 (List.replicate 8 0)).length + 2 = 40 ∧
    (packetBuilderInit 0 (List.replicate 8 0)).drop 28 = List.replicate 10 0 ∧
    ((packetBuilderFinalize (fun b => b) (fun _ => List.replicate 16 0xAB)
        (packetBuilderInit 0 (List.replicate 8 0)) (List.replicate 15 7) 1).drop 38).take 16 =
      aesEncrypt (fun b => b) (List.replicate 15 7) := by
  decide

/-- Claim C9: a v3 frame carrying the five ASCII bytes ERROR in its
encrypted-payload slot (followed by a 32-byte signature) makes decode8370
throw a CBC block-length error inside aesCbcDecrypt instead of surfacing an
error frame: CBC decryption output always has the input's length, a
multiple of 16, so the 5-byte plaintext ERROR comparison in the decoder is
unreachable. -/
theorem decode8370_error_frame_raises :
    decode8370 (fun _ b => b) (fun _ => List.replicate 32 0)
      { tcpKey := some (List.replicate 16 0), requestCount := 0, responseCount := 0 }
      ([0x83, 0x70, 0x00, 0x23, 0x20, 0x06] ++ errorBytes ++ List.replicate 32 9) =
      .error .cbcBlockLength := by
  decide

theorem pad16_le (n : Nat) : pad16 n ≤ 15 := by
  unfold pad16
  split <;> omega

/-- Claim C10: while tcp_key is unset, encoding a frame with an encrypted
message type fails with the missing-key error before any ciphertext is
produced, and decoding any complete well-formed frame carrying an encrypted
message type fails with the same error before any byte is consumed. -/
theorem encrypted_requires_tcp_key (encB : List Nat → List Nat → List Nat)
    (hash : List Nat → List Nat) (rb : Nat → List Nat) (st : SecState) (data : List Nat)
    (msgType : Nat)
    (hkey : st.tcpKey = none)
    (hmt : msgType = MSGTYPE_ENCRYPTED_RESPONSE ∨ msgType = MSGTYPE_ENCRYPTED_REQUEST)
    (hrb : ∀ n, (rb n).length = n)
    (hdata : data.length ≤ 65000) :
    (encode8370 encB hash rb st data msgType).1 = .error .tcpKeyNotSet ∧
    (∀ decB : List Nat → List Nat → List Nat, ∀ hi lo b5 : Nat, ∀ rest : List Nat,
      b5 &&& 0x0f = MSGTYPE_ENCRYPTED_RESPONSE ∨ b5 &&& 0x0f = MSGTYPE_ENCRYPTED_REQUEST →
      rest.length = hi * 256 + lo + 2 →
      decode8370 decB hash st ([0x83, 0x70, hi, lo, 0x20, b5] ++ rest) =
        .error .tcpKeyNotSet) := by
  constructor
  · rw [encode8370]
    simp only [if_pos hmt]
    rw [if_neg (by
      simp only [List.length_append, hrb]
      have := pad16_le data.length
      omega)]
    rw [hkey]
  · intro decB hi lo b5 rest hb5 hrl
    have hlen : ([0x83, 0x70, hi, lo, 0x20, b5] ++ rest).length = hi * 256 + lo + 8 := by
      simp [hrl]
    obtain ⟨f, hf⟩ : ∃ f, ([0x83, 0x70, hi, lo, 0x20, b5] ++ rest).length = f + 1 :=
      ⟨hi * 256 + lo + 7, by rw [hlen]⟩
    have hg2 : ([0x83, 0x70, hi, lo, 0x20, b5] ++ rest).getD 2 0 = hi := rfl
    have hg3 : ([0x83, 0x70, hi, lo, 0x20, b5] ++ rest).getD 3 0 = lo := rfl
    have hg5 : ([0x83, 0x70, hi, lo, 0x20, b5] ++ rest).getD 5 0 = b5 := rfl
    have hstep : decode8370Step decB hash st ([0x83, 0x70, hi, lo, 0x20, b5] ++ rest) =
        .fail .tcpKeyNotSet := by
      rw [decode8370Step]
      simp only [hg2, hg3, hg5, hlen]
      rw [if_neg (by omega), if_pos ⟨rfl, rfl⟩, if_neg (by omega),
        if_pos (show ([0x83, 0x70, hi, lo, 0x20, b5] ++ rest).getD 4 0 = 0x20 from rfl),
        if_pos hb5, hkey]
    rw [decode8370, hf, decode8370Go, hstep]

theorem pad16_mod (n : Nat) : (n + 2 + pad16 n) % 16 = 0 := by
  unfold pad16
  split <;> omega

/-- Claim C2 counterexample: encoding the 4-byte payload DE AD BE EF as an
EncryptedRequest pads it to 14 bytes and writes 46 = 14 + 32 into the size
field, not 48 = 14 + 2 + 32 as the claim demands. -/
theorem size_field_counterexample :
    (encode8370 (fun _ b => b) (fun _ => List.replicate 32 0) (fun n => List.replicate n 0)
        { tcpKey := some (List.replicate 16 0), requestCount := 0, responseCount := 0 }
        [0xDE, 0xAD, 0xBE, 0xEF] MSGTYPE_ENCRYPTED_REQUEST).1.map
        (fun f => f.getD 2 0 * 256 + f.getD 3 0) = .ok 46 ∧
    4 + pad16 4 + 2 + 32 = 48 ∧ (46 : Nat) ≠ 48 := by
  decide

/-- Claim C2 (amended): the 16-bit big-endian size field at header bytes
2..4 of every produced frame equals len(payload_after_pad) + 32 for the
encrypted message types and len(payload) otherwise; the two counter bytes
are not included (the decoder accounts for them in its fixed +8). -/
theorem size_field_value (encB : List Nat → List Nat → List Nat)
    (hash : List Nat → List Nat) (rb : Nat → List Nat) (st : SecState)
    (data : List Nat) (msgType : Nat) (frame : List Nat) (st2 : SecState)
    (hrb : ∀ n, (rb n).length = n)
    (henc : encode8370 encB hash rb st data msgType = (.ok frame, st2)) :
    frame.getD 2 0 * 256 + frame.getD 3 0 =
      if msgType = MSGTYPE_ENCRYPTED_RESPONSE ∨ msgType = MSGTYPE_ENCRYPTED_REQUEST then
        data.length + pad16 data.length + 32
      else
        data.length := by
  by_cases hmt : msgType = MSGTYPE_ENCRYPTED_RESPONSE ∨ msgType = MSGTYPE_ENCRYPTED_REQUEST
  · rw [if_pos hmt]
    rw [encode8370] at henc
    simp only [if_pos hmt] at henc
    have hslen : (data ++ rb (pad16 data.length)).length + 32 =
        data.length + pad16 data.length + 32 := by
      simp [hrb]
    by_cases hge : (data ++ rb (pad16 data.length)).length + 32 ≥ 65536
    · rw [if_pos hge] at henc
      exact absurd (congrArg Prod.fst henc) (by simp)
    · rw [if_neg hge] at henc
      cases hk : st.tcpKey with
      | none =>
        rw [hk] at henc
        exact absurd (congrArg Prod.fst henc) (by simp)
      | some key =>
        rw [hk] at henc
        have hdte : ([st.requestCount / 256, st.requestCount % 256] ++
            (data ++ rb (pad16 data.length))).length % 16 = 0 := by
          simp only [List.length_append, List.length_cons, List.length_nil, hrb]
          have := pad16_mod data.length
          omega
        simp only [aesCbcEncrypt] at henc
        rw [if_pos hdte] at henc
        have hframe := congrArg Prod.fst henc
        simp only [Except.ok.injEq] at hframe
        rw [← hframe]
        have hg2 : (([0x83, 0x70, ((data ++ rb (pad16 data.length)).length + 32) / 256,
            ((data ++ rb (pad16 data.length)).length + 32) % 256, 0x20,
            ((pad16 data.length <<< 4) ||| msgType) % 256] ++
              (cbcEncAux (encB key) iv16
                (chunks16 ([st.requestCount / 256, st.requestCount % 256] ++
                  (data ++ rb (pad16 data.length))))).flatten ++
              hash ([0x83, 0x70, ((data ++ rb (pad16 data.length)).length + 32) / 256,
                ((data ++ rb (pad16 data.length)).length + 32) % 256, 0x20,
                ((pad16 data.length <<< 4) ||| msgType) % 256] ++
                ([st.requestCount / 256, st.requestCount % 256] ++
                  (data ++ rb (pad16 data.length))))).getD 2 0) =
            ((data ++ rb (pad16 data.length)).length + 32) / 256 := rfl
        rw [hg2]
        have hg3 : (([0x83, 0x70, ((data ++ rb (pad16 data.length)).length + 32) / 256,
            ((data ++ rb (pad16 data.length)).length + 32) % 256, 0x20,
            ((pad16 data.length <<< 4) ||| msgType) % 256] ++
              (cbcEncAux (encB key) iv16
                (chunks16 ([st.requestCount / 256, st.requestCount % 256] ++
                  (data ++ rb (pad16 data.length))))).flatten ++
              hash ([0x83, 0x70, ((data ++ rb (pad16 data.length)).length + 32) / 256,
                ((data ++ rb (pad16 data.length)).length + 32) % 256, 0x20,
                ((pad16 data.length <<< 4) ||| msgType) % 256] ++
                ([st.requestCount / 256, st.requestCount % 256] ++
                  (data ++ rb (pad16 data.length))))).getD 3 0) =
            ((data ++ rb (pad16 data.length)).length + 32) % 256 := rfl
        rw [hg3]
        omega
  · rw [if_neg hmt]
    rw [encode8370] at henc
    simp only [if_neg hmt] at henc
    by_cases hge : data.length ≥ 65536
    · rw [if_pos hge] at henc
      exact absurd (congrArg Prod.fst henc) (by simp)
    · rw [if_neg hge] at henc
      have hframe := congrArg Prod.fst henc
      simp only [Except.ok.injEq] at hframe
      rw [← hframe]
      have hg2 : (([0x83, 0x70, data.length / 256, data.length % 256, 0x20,
          ((0 <<< 4) ||| msgType) % 256] ++
            ([st.requestCount / 256, st.requestCount % 256] ++ data)).getD 2 0) =
          data.length / 256 := rfl
      have hg3 : (([0x83, 0x70, data.length / 256, data.length % 256, 0x20,
          ((0 <<< 4) ||| msgType) % 256] ++
            ([st.requestCount / 256, st.requestCount % 256] ++ data)).getD 3 0) =
          data.length % 256 := rfl
      rw [hg2, hg3]
      omega

/-- Claim C2 witness: a plain handshake frame for the 3-byte payload 1 2 3
carries size field 3, the payload length. -/
theorem size_field_value_witness :
    ([0x83, 0x70, 0, 3, 0x20, 0, 0, 5, 1, 2, 3] : List Nat).getD 2 0 * 256 +
      ([0x83, 0x70, 0, 3, 0x20, 0, 0, 5, 1, 2, 3] : List Nat).getD 3 0 =
      if MSGTYPE_HANDSHAKE_REQUEST = MSGTYPE_ENCRYPTED_RESPONSE ∨
          MSGTYPE_HANDSHAKE_REQUEST = MSGTYPE_ENCRYPTED_REQUEST then
        ([1, 2, 3] : List Nat).length + pad16 ([1, 2, 3] : List Nat).length + 32
      else
        ([1, 2, 3] : List Nat).length :=
  size_field_value (fun _ b => b) (fun _ => List.replicate 32 0)
    (fun n => List.replicate n 0)
    { tcpKey := none, requestCount := 5, responseCount := 0 } [1, 2, 3]
    MSGTYPE_HANDSHAKE_REQUEST [0x83, 0x70, 0, 3, 0x20, 0, 0, 5, 1, 2, 3]
    { tcpKey := none, requestCount := 6, responseCount := 0 }
    (fun n => by simp) (by decide)

theorem nibble6 (p : Nat) (hp : p ≤ 15) :
    ((((p <<< 4) ||| 6) % 256) >>> 4 = p) ∧ ((((p <<< 4) ||| 6) % 256) &&& 15 = 6) := by
  interval_cases p <;> exact ⟨by decide, by decide⟩

theorem decode8370Go_nil (decB : List Nat → List Nat → List Nat)
    (hash : List Nat → List Nat) (fuel : Nat) (st : SecState) (acc : List (List Nat)) :
    decode8370Go decB hash fuel st [] acc = .ok (acc.reverse, [], st) := by
  cases fuel <;> rfl

/-- Claim C5: for a 64-byte handshake response, tcpKey CBC-decrypts the
first 32 bytes under the supplied key, compares the hash of the plaintext
with the trailing 32-byte signature, and on mismatch throws (returning no
updated state, so tcp_key and the counters are untouched); on a match the
new session state carries tcp_key = plain XOR key and both counters reset
to 0.  Responses of any other length are rejected. -/
theorem tcpKey_spec (decB : List Nat → List Nat → List Nat) (hash : List Nat → List Nat)
    (st : SecState) (response key : List Nat)
    (h64 : response.length = 64) :
    (hash (cbcDecAux (decB key) iv16 (chunks16 (response.take 32))).flatten ≠
        response.drop 32 →
      tcpKeyOp decB hash st response key = .error .tcpKeySignMismatch) ∧
    (hash (cbcDecAux (decB key) iv16 (chunks16 (response.take 32))).flatten =
        response.drop 32 →
      tcpKeyOp decB hash st response key =
        .ok { tcpKey := some (bufferXOR
                ((cbcDecAux (decB key) iv16 (chunks16 (response.take 32))).flatten) key),
              requestCount := 0, responseCount := 0 }) ∧
    (∀ r : List Nat, r.length ≠ 64 → (tcpKeyOp decB hash st r key).isOk = false) := by
  have hne : response ≠ errorBytes := by
    intro h
    rw [h] at h64
    simp [errorBytes] at h64
  have htake : (response.take 32).length % 16 = 0 := by
    simp [List.length_take, h64]
  have hdec : aesCbcDecrypt decB (response.take 32) key =
      .ok (cbcDecAux (decB key) iv16 (chunks16 (response.take 32))).flatten := by
    rw [aesCbcDecrypt, if_pos htake]
  refine ⟨?_, ?_, ?_⟩
  · intro hsg
    rw [tcpKeyOp, if_neg hne, if_neg (not_not_intro h64)]
    simp only [hdec]
    rw [if_neg hsg]
  · intro hsg
    rw [tcpKeyOp, if_neg hne, if_neg (not_not_intro h64)]
    simp only [hdec]
    rw [if_pos hsg]
  · intro r hr
    rw [tcpKeyOp]
    by_cases herr : r = errorBytes
    · rw [if_pos herr]
      rfl
    · rw [if_neg herr, if_pos hr]
      rfl

/-- Claim C5 witness: for a 64-zero-byte response under an identity block
cipher the plaintext is 32 zero bytes; a hash stub returning 32 zero bytes
matches the signature and installs tcp_key = plain XOR key with counters 0,
a hash stub returning ones throws the sign-mismatch error, and a 5-byte
response is rejected for its length. -/
theorem tcpKey_spec_witness :
    tcpKeyOp (fun _ b => b) (fun _ => List.replicate 32 0)
      { tcpKey := none, requestCount := 3, responseCount := 4 }
      (List.replicate 64 0) (List.replicate 32 7) =
      .ok { tcpKey := some (bufferXOR
              ((cbcDecAux ((fun (_ b : List Nat) => b) (List.replicate 32 7)) iv16
                (chunks16 ((List.replicate 64 0).take 32))).flatten) (List.replicate 32 7)),
            requestCount := 0, responseCount := 0 } ∧
    tcpKeyOp (fun _ b => b) (fun _ => List.replicate 32 1)
      { tcpKey := none, requestCount := 3, responseCount := 4 }
      (List.replicate 64 0) (List.replicate 32 7) = .error .tcpKeySignMismatch ∧
    (tcpKeyOp (fun _ b => b) (fun _ => List.replicate 32 0)
      { tcpKey := none, requestCount := 3, responseCount := 4 }
      (List.replicate 5 0) (List.replicate 32 7)).isOk = false := by
  refine ⟨?_, ?_, ?_⟩
  · exact (tcpKey_spec (fun _ b => b) (fun _ => List.replicate 32 0)
      { tcpKey := none, requestCount := 3, responseCount := 4 }
      (List.replicate 64 0) (List.replicate 32 7) (by decide)).2.1 (by decide)
  · exact (tcpKey_spec (fun _ b => b) (fun _ => List.replicate 32 1)
      { tcpKey := none, requestCount := 3, responseCount := 4 }
      (List.replicate 64 0) (List.replicate 32 7) (by decide)).1 (by decide)
  · exact (tcpKey_spec (fun _ b => b) (fun _ => List.replicate 32 0)
      { tcpKey := none, requestCount := 3, responseCount := 4 }
      (List.replicate 64 0) (List.replicate 32 7) (by decide)).2.2
      (List.replicate 5 0) (by decide)

/-- Repeated framing through the same session: the state after n calls of
encode8370 with the same payload and message type. -/
def encodeIter (encB : List Nat → List Nat → List Nat) (hash : List Nat → List Nat)
    (rb : Nat → List Nat) (data : List Nat) (msgType : Nat) :
    Nat → SecState → SecState
  | 0, st => st
  | n + 1, st =>
    (encode8370 encB hash rb (encodeIter encB hash rb data msgType n st) data msgType).2

theorem encode8370_handshake_state (encB : List Nat → List Nat → List Nat)
    (hash : List Nat → List Nat) (rb : Nat → List Nat) (st : SecState)
    (data : List Nat) (hd : data.length < 65536) :
    (encode8370 encB hash rb st data MSGTYPE_HANDSHAKE_REQUEST).2 =
      { st with requestCount := counterStep st.requestCount } := by
  rw [encode8370]
  simp only [if_neg (show ¬ (MSGTYPE_HANDSHAKE_REQUEST = MSGTYPE_ENCRYPTED_RESPONSE ∨
    MSGTYPE_HANDSHAKE_REQUEST = MSGTYPE_ENCRYPTED_REQUEST) by decide)]
  rw [if_neg (by omega)]

theorem encodeIter_requestCount (encB : List Nat → List Nat → List Nat)
    (hash : List Nat → List Nat) (rb : Nat → List Nat) (data : List Nat)
    (hd : data.length < 65536) :
    ∀ n : Nat, (encodeIter encB hash rb data MSGTYPE_HANDSHAKE_REQUEST n
      { tcpKey := none, requestCount := 0, responseCount := 0 }).requestCount = n % 65535 := by
  intro n
  induction n with
  | zero => rfl
  | succ n ih =>
    rw [encodeIter, encode8370_handshake_state encB hash rb _ data hd]
    show counterStep _ = (n + 1) % 65535
    rw [ih]
    unfold counterStep
    split <;> omega

/-- Claim C4 counterexample: starting from a fresh session, after 0xFFFF
frames the request counter is back at 0 — the increment-mod-2^16 reading of
the claim predicts 0xFFFF (= 0xFFFF % 0x10000) at that point, since an
order-2^16 cycle would only return to 0 after 0x10000 frames. -/
theorem counter_wrap_counterexample :
    (encodeIter (fun _ b => b) (fun _ => List.replicate 32 0) (fun n => List.replicate n 0)
      [] MSGTYPE_HANDSHAKE_REQUEST 0xFFFF
      { tcpKey := none, requestCount := 0, responseCount := 0 }).requestCount = 0 ∧
    (0xFFFF : Nat) % 0x10000 = 0xFFFF ∧ (0 : Nat) ≠ 0xFFFF := by
  refine ⟨?_, by norm_num, by norm_num⟩
  rw [encodeIter_requestCount (fun _ b => b) (fun _ => List.replicate 32 0)
    (fun n => List.replicate n 0) [] (by decide) 0xFFFF]

/-- Claim C4 (amended): every encode8370 call embeds the current 16-bit
request counter big-endian directly after the 6-byte header (shown here on
a handshake frame, where the bytes are in the clear) and advances the
counter exactly once, by counterStep: increment, then reset to 0 as soon as
the counter reaches 0xFFFF.  Iterating from a fresh session, the counter
before the n-th frame is n % 0xFFFF — the wrap has period 0xFFFF, not
2^16, and the value 0xFFFF is never embedded. -/
theorem counter_embedding (encB : List Nat → List Nat → List Nat)
    (hash : List Nat → List Nat) (rb : Nat → List Nat) (st : SecState)
    (data : List Nat) (hd : data.length < 65536) :
    (encode8370 encB hash rb st data MSGTYPE_HANDSHAKE_REQUEST).1 =
      .ok ([0x83, 0x70, data.length / 256, data.length % 256, 0x20, 0x00] ++
        ([st.requestCount / 256, st.requestCount % 256] ++ data)) ∧
    (encode8370 encB hash rb st data MSGTYPE_HANDSHAKE_REQUEST).2 =
      { st with requestCount := counterStep st.requestCount } ∧
    (∀ n : Nat, (encodeIter encB hash rb data MSGTYPE_HANDSHAKE_REQUEST n
      { tcpKey := none, requestCount := 0, responseCount := 0 }).requestCount =
        n % 0xFFFF) := by
  refine ⟨?_, encode8370_handshake_state encB hash rb st data hd,
    encodeIter_requestCount encB hash rb data hd⟩
  rw [encode8370]
  simp only [if_neg (show ¬ (MSGTYPE_HANDSHAKE_REQUEST = MSGTYPE_ENCRYPTED_RESPONSE ∨
    MSGTYPE_HANDSHAKE_REQUEST = MSGTYPE_ENCRYPTED_REQUEST) by decide)]
  rw [if_neg (by omega)]
  rfl

/-- Claim C4 witness: a handshake frame for payload 1 2 3 at counter 5
embeds the bytes 00 05 after the header, steps the counter to 6, and at
frame index 70000 of a fresh session the counter reads 70000 % 0xFFFF =
4465. -/
theorem counter_embedding_witness :
    (encode8370 (fun _ b => b) (fun _ => List.replicate 32 0) (fun n => List.replicate n 0)
      { tcpKey := none, requestCount := 5, responseCount := 0 } [1, 2, 3]
      MSGTYPE_HANDSHAKE_REQUEST).1 =
      .ok ([0x83, 0x70, ([1, 2, 3] : List Nat).length / 256,
        ([1, 2, 3] : List Nat).length % 256, 0x20, 0x00] ++ ([5 / 256, 5 % 256] ++ [1, 2, 3])) ∧
    (encode8370 (fun _ b => b) (fun _ => List.replicate 32 0) (fun n => List.replicate n 0)
      { tcpKey := none, requestCount := 5, responseCount := 0 } [1, 2, 3]
      MSGTYPE_HANDSHAKE_REQUEST).2 =
      { tcpKey := none, requestCount := counterStep 5, responseCount := 0 } ∧
    (encodeIter (fun _ b => b) (fun _ => List.replicate 32 0) (fun n => List.replicate n 0)
      [1, 2, 3] MSGTYPE_HANDSHAKE_REQUEST 70000
      { tcpKey := none, requestCount := 0, responseCount := 0 }).requestCount =
      70000 % 0xFFFF := by
  have h := counter_embedding (fun _ b => b) (fun _ => List.replicate 32 0)
    (fun n => List.replicate n 0)
    { tcpKey := none, requestCount := 5, responseCount := 0 } [1, 2, 3] (by decide)
  exact ⟨h.1, h.2.1, h.2.2 70000⟩

/-- Claim C10 witness: with no tcp_key, encoding a 4-byte payload as an
EncryptedRequest and decoding a minimal complete encrypted frame both fail
with the missing-key error. -/
theorem encrypted_requires_tcp_key_witness :
    (encode8370 (fun _ b => b) (fun _ => List.replicate 32 0) (fun n => List.replicate n 0)
      { tcpKey := none, requestCount := 0, responseCount := 0 }
      [0xDE, 0xAD, 0xBE, 0xEF] MSGTYPE_ENCRYPTED_REQUEST).1 = .error .tcpKeyNotSet ∧
    decode8370 (fun _ b => b) (fun _ => List.replicate 32 0)
      { tcpKey := none, requestCount := 0, responseCount := 0 }
      ([0x83, 0x70, 0, 0, 0x20, 6] ++ [0, 0]) = .error .tcpKeyNotSet := by
  refine ⟨(encrypted_requires_tcp_key (fun _ b => b) (fun _ => List.replicate 32 0)
    (fun n => List.replicate n 0)
    { tcpKey := none, requestCount := 0, responseCount := 0 }
    [0xDE, 0xAD, 0xBE, 0xEF] MSGTYPE_ENCRYPTED_REQUEST rfl (Or.inr rfl)
    (fun n => by simp) (by decide)).1, ?_⟩
  exact (encrypted_requires_tcp_key (fun _ b => b) (fun _ => List.replicate 32 0)
    (fun n => List.replicate n 0)
    { tcpKey := none, requestCount := 0, responseCount := 0 }
    [0xDE, 0xAD, 0xBE, 0xEF] MSGTYPE_ENCRYPTED_REQUEST rfl (Or.inr rfl)
    (fun n => by simp) (by decide)).2 (fun _ b => b) 0 0 6 [0, 0] (Or.inr (by decide))
    (by decide)


/-- Claim C1: for every payload and every session whose tcp_key is set,
encoding the payload as an EncryptedRequest v3 frame and feeding the
produced bytes back to the decoder under the same tcp_key yields exactly
that payload as the single decoded frame with empty leftover, and the
decoder's observed response counter equals the request counter embedded at
encode time.  The AES block pair is assumed inverse on 16-byte blocks with
16-byte output, the random source produces the requested number of pad
bytes, and the hash produces 32-byte digests, as the node primitives do. -/
theorem encode_decode_roundtrip (encB decB : List Nat → List Nat → List Nat)
    (hash : List Nat → List Nat) (rb : Nat → List Nat) (st : SecState)
    (key data : List Nat)
    (hkey : st.tcpKey = some key)
    (hinv : ∀ b : List Nat, b.length = 16 → decB key (encB key b) = b)
    (hblen : ∀ b : List Nat, (encB key b).length = 16)
    (hrb : ∀ n : Nat, (rb n).length = n)
    (hhash : ∀ x : List Nat, (hash x).length = 32)
    (hdata : data.length ≤ 65000) :
    (encode8370 encB hash rb st data MSGTYPE_ENCRYPTED_REQUEST).1.map
      (fun frame =>
        decode8370 decB hash
          (encode8370 encB hash rb st data MSGTYPE_ENCRYPTED_REQUEST).2 frame) =
      .ok (.ok ([data], [],
        { tcpKey := st.tcpKey, requestCount := counterStep st.requestCount,
          responseCount := st.requestCount })) := by
  have hpadle : pad16 data.length ≤ 15 := pad16_le data.length
  have hpadmod := pad16_mod data.length
  have hdtelen : ([st.requestCount / 256, st.requestCount % 256] ++
      (data ++ rb (pad16 data.length))).length = data.length + pad16 data.length + 2 := by
    simp only [List.length_append, List.length_cons, List.length_nil, hrb]
    omega
  have hdtemod : ([st.requestCount / 256, st.requestCount % 256] ++
      (data ++ rb (pad16 data.length))).length % 16 = 0 := by
    rw [hdtelen]
    omega
  have henc : encode8370 encB hash rb st data MSGTYPE_ENCRYPTED_REQUEST =
      (.ok (([0x83, 0x70, ((data ++ rb (pad16 data.length)).length + 32) / 256,
          ((data ++ rb (pad16 data.length)).length + 32) % 256, 0x20,
          ((pad16 data.length <<< 4) ||| MSGTYPE_ENCRYPTED_REQUEST) % 256] ++
          (cbcEncAux (encB key) iv16
            (chunks16 ([st.requestCount / 256, st.requestCount % 256] ++
              (data ++ rb (pad16 data.length))))).flatten) ++
          hash ([0x83, 0x70, ((data ++ rb (pad16 data.length)).length + 32) / 256,
            ((data ++ rb (pad16 data.length)).length + 32) % 256, 0x20,
            ((pad16 data.length <<< 4) ||| MSGTYPE_ENCRYPTED_REQUEST) % 256] ++
            ([st.requestCount / 256, st.requestCount % 256] ++
              (data ++ rb (pad16 data.length))))),
        { st with requestCount := counterStep st.requestCount }) := by
    rw [encode8370]
    simp only [eq_true (show MSGTYPE_ENCRYPTED_REQUEST = MSGTYPE_ENCRYPTED_RESPONSE ∨
      MSGTYPE_ENCRYPTED_REQUEST = MSGTYPE_ENCRYPTED_REQUEST from Or.inr rfl), or_true,
      if_true]
    rw [if_neg (show ¬ ((data ++ rb (pad16 data.length)).length + 32 ≥ 65536) by
      simp only [List.length_append, hrb]
      omega)]
    rw [hkey]
    simp only [aesCbcEncrypt]
    rw [if_pos hdtemod]
  simp only [henc, Except.map, Except.ok.injEq]
  rw [List.append_assoc]
  set P := pad16 data.length with hP
  set DTE : List Nat := [st.requestCount / 256, st.requestCount % 256] ++
    (data ++ rb P) with hDTE
  set CT : List Nat := (cbcEncAux (encB key) iv16 (chunks16 DTE)).flatten with hCT
  set HDR : List Nat := [0x83, 0x70, ((data ++ rb P).length + 32) / 256,
    ((data ++ rb P).length + 32) % 256, 0x20,
    ((P <<< 4) ||| MSGTYPE_ENCRYPTED_REQUEST) % 256] with hHDR
  set SG : List Nat := hash (HDR ++ DTE) with hSG
  have hhdr6 : HDR.length = 6 := by rw [hHDR]; rfl
  have hM : (data ++ rb P).length = data.length + P := by
    simp only [List.length_append, hrb]
  have hencok : aesCbcEncrypt encB DTE key = .ok CT := by
    rw [aesCbcEncrypt, if_pos hdtemod, hCT]
  obtain ⟨hctlen, hdecok⟩ :=
    aesCbcDecrypt_aesCbcEncrypt encB decB key DTE CT hinv hblen hdtemod hencok
  have hsg32 : SG.length = 32 := by rw [hSG]; exact hhash _
  have hfl : (HDR ++ (CT ++ SG)).length = DTE.length + 38 := by
    simp only [List.length_append, hhdr6, hctlen, hsg32]
    omega
  have hg2 : (HDR ++ (CT ++ SG)).getD 2 0 = ((data ++ rb P).length + 32) / 256 := by
    rw [hHDR]; rfl
  have hg3 : (HDR ++ (CT ++ SG)).getD 3 0 = ((data ++ rb P).length + 32) % 256 := by
    rw [hHDR]; rfl
  have hg5 : (HDR ++ (CT ++ SG)).getD 5 0 =
      ((P <<< 4) ||| MSGTYPE_ENCRYPTED_REQUEST) % 256 := by
    rw [hHDR]; rfl
  have hs8 : ((data ++ rb P).length + 32) / 256 * 256 +
      ((data ++ rb P).length + 32) % 256 + 8 = DTE.length + 38 := by
    rw [hM, hdtelen]
    omega
  obtain ⟨hn1, hn2⟩ := nibble6 P hpadle
  have hstep : decode8370Step decB hash
      { st with requestCount := counterStep st.requestCount } (HDR ++ (CT ++ SG)) =
      .emit data ⟨st.tcpKey, counterStep st.requestCount, st.requestCount⟩ := by
    rw [decode8370Step]
    rw [if_neg (show ¬ ((HDR ++ (CT ++ SG)).length < 6) by rw [hfl]; omega)]
    rw [if_pos (show (HDR ++ (CT ++ SG)).getD 0 0 = 0x83 ∧
      (HDR ++ (CT ++ SG)).getD 1 0 = 0x70 from ⟨by rw [hHDR]; rfl, by rw [hHDR]; rfl⟩)]
    simp only [hg2, hg3, hg5, hs8]
    rw [if_neg (show ¬ ((HDR ++ (CT ++ SG)).length < DTE.length + 38) by
      rw [hfl]; omega)]
    rw [if_pos (show (HDR ++ (CT ++ SG)).getD 4 0 = 0x20 from by rw [hHDR]; rfl)]
    simp only [MSGTYPE_ENCRYPTED_RESPONSE, MSGTYPE_ENCRYPTED_REQUEST] at hn1 hn2 ⊢
    simp only [hn1, hn2]
    rw [show ({ st with requestCount := counterStep st.requestCount} : SecState).tcpKey =
      some key from hkey]
    have htake : (HDR ++ (CT ++ SG)).take (DTE.length + 38) = HDR ++ (CT ++ SG) :=
      List.take_of_length_le (le_of_eq hfl)
    simp only [htake]
    have hdrop6 : (HDR ++ (CT ++ SG)).drop 6 = CT ++ SG := List.drop_left' hhdr6
    simp only [hdrop6]
    have hpl : (CT ++ SG).length = DTE.length + 32 := by
      simp only [List.length_append, hctlen, hsg32]
    rw [if_neg (show ¬ ((CT ++ SG).length < 32) by rw [hpl]; omega)]
    have hminus : (CT ++ SG).length - 32 = CT.length := by rw [hpl]; omega
    simp only [hminus, List.drop_left, List.take_left]
    simp only [hdecok]
    have htake6 : (HDR ++ (CT ++ SG)).take 6 = HDR := List.take_left' hhdr6
    simp only [htake6]
    simp only [or_true, if_true]
    have hcommon : ∀ payload2 : List Nat,
        payload2 = [st.requestCount / 256, st.requestCount % 256] ++ data →
        (if payload2.length < 2 then (StepResult.fail .payloadTooShort) else
          StepResult.emit (payload2.drop 2)
            ⟨some key, counterStep st.requestCount,
              payload2.getD 0 0 * 256 + payload2.getD 1 0⟩) =
        .emit data ⟨some key, counterStep st.requestCount, st.requestCount⟩ := by
      intro payload2 hpay
      subst hpay
      rw [if_neg (show ¬ (([st.requestCount / 256, st.requestCount % 256] ++ data).length < 2) by
        simp only [List.length_append, List.length_cons, List.length_nil]; omega)]
      have hdrop2 : ([st.requestCount / 256, st.requestCount % 256] ++ data).drop 2 = data := rfl
      have hgd0 : ([st.requestCount / 256, st.requestCount % 256] ++ data).getD 0 0 =
        st.requestCount / 256 := rfl
      have hgd1 : ([st.requestCount / 256, st.requestCount % 256] ++ data).getD 1 0 =
        st.requestCount % 256 := rfl
      rw [hdrop2, hgd0, hgd1]
      rw [show st.requestCount / 256 * 256 + st.requestCount % 256 = st.requestCount by omega]
    by_cases hp : P > 0
    · rw [if_pos hp]
      refine hcommon _ ?_
      rw [hDTE]
      rw [show DTE.length - P = ([st.requestCount / 256, st.requestCount % 256] ++ data).length by
        rw [hDTE]
        simp only [List.length_append, List.length_cons, List.length_nil, hrb]
        omega]
      rw [show [st.requestCount / 256, st.requestCount % 256] ++ (data ++ rb P) =
        ([st.requestCount / 256, st.requestCount % 256] ++ data) ++ rb P from
        (List.append_assoc _ _ _).symm]
      exact List.take_left _ _
    · rw [if_neg hp]
      refine hcommon _ ?_
      have hP0 : P = 0 := by omega
      rw [hDTE, hP0, List.eq_nil_of_length_eq_zero (hrb 0), List.append_nil]
  rw [decode8370]
  obtain ⟨f, hf⟩ : ∃ f, (HDR ++ (CT ++ SG)).length = f + 1 :=
    ⟨DTE.length + 37, by rw [hfl]⟩
  rw [hf, decode8370Go, hstep]
  simp only [hg2, hg3, hs8]
  have hdropall : (HDR ++ (CT ++ SG)).drop (DTE.length + 38) = [] :=
    List.drop_eq_nil_of_le (le_of_eq hfl)
  rw [hdropall, decode8370Go_nil]
  simp


/-- Claim C1 witness: the payload DE AD BE EF, encoded at request counter 7
under a 16-byte tcp_key with a length-preserving invertible block-cipher
stand-in, decodes back to exactly that payload with empty leftover and
response counter 7. -/
theorem encode_decode_roundtrip_witness :
    (encode8370 (fun _ b => b.take 16 ++ List.replicate (16 - b.length) 0)
        (fun _ => List.replicate 32 0) (fun n => List.replicate n 0)
        { tcpKey := some (List.replicate 16 1), requestCount := 7, responseCount := 9 }
        [0xDE, 0xAD, 0xBE, 0xEF] MSGTYPE_ENCRYPTED_REQUEST).1.map
      (fun frame =>
        decode8370 (fun _ b => b.take 16 ++ List.replicate (16 - b.length) 0)
          (fun _ => List.replicate 32 0)
          (encode8370 (fun _ b => b.take 16 ++ List.replicate (16 - b.length) 0)
            (fun _ => List.replicate 32 0) (fun n => List.replicate n 0)
            { tcpKey := some (List.replicate 16 1), requestCount := 7, responseCount := 9 }
            [0xDE, 0xAD, 0xBE, 0xEF] MSGTYPE_ENCRYPTED_REQUEST).2 frame) =
      .ok (.ok ([[0xDE, 0xAD, 0xBE, 0xEF]], [],
        { tcpKey := some (List.replicate 16 1), requestCount := counterStep 7,
          responseCount := 7 })) :=
  encode_decode_roundtrip
    (fun _ b => b.take 16 ++ List.replicate (16 - b.length) 0)
    (fun _ b => b.take 16 ++ List.replicate (16 - b.length) 0)
    (fun _ => List.replicate 32 0) (fun n => List.replicate n 0)
    { tcpKey := some (List.replicate 16 1), requestCount := 7, responseCount := 9 }
    (List.replicate 16 1) [0xDE, 0xAD, 0xBE, 0xEF] rfl
    (fun b hb => by
      have h1 : b.take 16 = b := List.take_of_length_le (le_of_eq hb)
      simp [h1, hb])
    (fun b => by
      simp only [List.length_append, List.length_take, List.length_replicate]
      omega)
    (fun n => by simp)
    (fun x => by simp)
    (by decide)

end Midea
